import Mathlib

/-!
# Payroll registry (`сем_3_lab_2.cpp`): shallow embedding and verified properties

The embedding covers the in-memory core of the program: the classes `WorkType`,
`WorkRecord`, `Worker` and `PayrollSystem`.  The console layer (menu, prompts) only
calls into this core and is represented by the validity predicate `Call.Valid`, which
records what its input helpers guarantee about the arguments they pass on.

Modelling conventions.

* `std::vector<T>` is `List T`; `push_back` appends at the end.
* A stored `double` amount is the rational number it represents (`ℚ`).  The two
  functions that compute with amounts come in two readings.  `Worker.calculateSalary`
  and `PayrollSystem.getTotalPayout` take the amounts as exact numbers, each `+` and
  `*` being that of `ℚ`.  `Worker.calculateSalaryDouble` and
  `PayrollSystem.getTotalPayoutDouble` are the same loops with the operations of
  IEEE 754 binary64 (`fadd`, `fmul`: the exact result rounded to nearest, ties to even),
  which is what the program executes.
* `int` identifiers are mathematical integers (`Int`).  The only arithmetic on them is
  the post-increment of the two id counters, which start at 1; leaving the range of
  `int` would take `2^31 - 1` creations of one kind and is undefined behaviour in C++,
  so the embedding describes the executions that stay inside the range.
* A non-const pointer into the `workers` vector (`Worker*`) is the position of the
  pointee in the list, `none` standing for `nullptr`; a `const WorkType*` that is only
  read is the value of the pointee.
* A mutating member function returns the new state together with its result.
-/

namespace Payroll

/-! ## Data model -/

/-- The enumeration `Position`. -/
inductive Position where
  | Employee
  | Manager
  | Accountant
  deriving DecidableEq, Repr

/-- The class `WorkType`: an id, a name and the payment per unit. -/
structure WorkType where
  id : Int
  name : String
  rate : ℚ
  deriving DecidableEq

/-- The class `WorkRecord`: the id of a work type and the number of units done. -/
structure WorkRecord where
  workTypeId : Int
  quantity : ℚ
  deriving DecidableEq

/-- The class `Worker`; `records` starts empty in the constructor. -/
structure Worker where
  id : Int
  surname : String
  position : Position
  records : List WorkRecord := []
  deriving DecidableEq

/-- The class `PayrollSystem`: the two collections and the two id counters. -/
structure PayrollSystem where
  workTypes : List WorkType
  workers : List Worker
  nextWorkerId : Int
  nextWorkTypeId : Int
  deriving DecidableEq

/-! ## `Worker` -/

/-- The member `Worker::getId`. -/
def Worker.getId (w : Worker) : Int := w.id

/-- The member `Worker::getSurname`. -/
def Worker.getSurname (w : Worker) : String := w.surname

/-- The member `Worker::getRecords`. -/
def Worker.getRecords (w : Worker) : List WorkRecord := w.records

/-- The member `Worker::addRecord`: `records.push_back(rec)`. -/
def Worker.addRecord (w : Worker) (rec : WorkRecord) : Worker :=
  { w with records := w.records ++ [rec] }

/-- The `find_if` call inside `Worker::calculateSalary`: the first work type of the
collection whose id equals the record's `workTypeId`; `none` is `workTypes.end()`. -/
def findIf (workTypes : List WorkType) (rec : WorkRecord) : Option WorkType :=
  workTypes.find? (fun wt => wt.id == rec.workTypeId)

/-- The member `Worker::calculateSalary` with the amounts taken as exact numbers: the
loop over `records` with the accumulator `total`, which starts at `0.0` and is left
alone when the work type is not found. -/
def Worker.calculateSalary (w : Worker) (workTypes : List WorkType) : ℚ :=
  w.records.foldl
    (fun total rec =>
      match findIf workTypes rec with
      | some wt => total + wt.rate * rec.quantity
      | none => total)
    0

/-! ## `PayrollSystem` -/

/-- The private constructor `PayrollSystem()`: empty collections, both counters at 1. -/
def PayrollSystem.fresh : PayrollSystem :=
  { workTypes := [], workers := [], nextWorkerId := 1, nextWorkTypeId := 1 }

/-- The member `PayrollSystem::addWorkType`. -/
def PayrollSystem.addWorkType (s : PayrollSystem) (name : String) (rate : ℚ) :
    PayrollSystem × Int :=
  let id := s.nextWorkTypeId
  ({ s with
      nextWorkTypeId := s.nextWorkTypeId + 1
      workTypes := s.workTypes ++ [{ id := id, name := name, rate := rate }] },
   id)

/-- The member `PayrollSystem::findWorkTypeById`: first element with that id. -/
def PayrollSystem.findWorkTypeById (s : PayrollSystem) (id : Int) : Option WorkType :=
  s.workTypes.find? (fun wt => wt.id == id)

/-- The member `PayrollSystem::addWorker`. -/
def PayrollSystem.addWorker (s : PayrollSystem) (surname : String) (pos : Position) :
    PayrollSystem × Int :=
  let id := s.nextWorkerId
  ({ s with
      nextWorkerId := s.nextWorkerId + 1
      workers := s.workers ++ [{ id := id, surname := surname, position := pos }] },
   id)

/-- The member `PayrollSystem::findWorkerById`: position of the first worker with
that id. -/
def PayrollSystem.findWorkerById (s : PayrollSystem) (id : Int) : Option Nat :=
  s.workers.findIdx? (fun w => w.getId == id)

/-- The member `PayrollSystem::findWorkerBySurname`: position of the first worker
whose surname equals the argument. -/
def PayrollSystem.findWorkerBySurname (s : PayrollSystem) (surname : String) :
    Option Nat :=
  s.workers.findIdx? (fun w => w.getSurname == surname)

/-- The member `PayrollSystem::addWorkRecordToWorker`. -/
def PayrollSystem.addWorkRecordToWorker (s : PayrollSystem) (workerId workTypeId : Int)
    (quantity : ℚ) : PayrollSystem × Bool :=
  match s.findWorkerById workerId with
  | none => (s, false)
  | some w =>
    match s.findWorkTypeById workTypeId with
    | none => (s, false)
    | some _ =>
      ({ s with
          workers := s.workers.modify
            (fun x => x.addRecord { workTypeId := workTypeId, quantity := quantity }) w },
       true)

/-- The member `PayrollSystem::getSalaryBySurname`; `none` is the result `false`, in
which case `outSalary` is not written. -/
def PayrollSystem.getSalaryBySurname (s : PayrollSystem) (surname : String) : Option ℚ :=
  match s.findWorkerBySurname surname with
  | none => none
  | some w => s.workers[w]?.map (fun x => x.calculateSalary s.workTypes)

/-- The member `PayrollSystem::getTotalPayout` with the amounts taken as exact numbers:
the loop over `workers` with the accumulator `total`. -/
def PayrollSystem.getTotalPayout (s : PayrollSystem) : ℚ :=
  s.workers.foldl (fun total w => total + w.calculateSalary s.workTypes) 0

/-! ## The arithmetic of `double` -/

/-- Auxiliary recursion for `natLog2`, the first argument bounding the number of steps. -/
def log2Fuel : Nat → Nat → Nat
  | 0, _ => 0
  | fuel + 1, n => if n < 2 then 0 else log2Fuel fuel (n / 2) + 1

/-- The position of the leading binary digit of a positive natural number. -/
def natLog2 (n : Nat) : Nat := log2Fuel n n

/-- The binary exponent of the positive rational `n / d`: the integer `k` with
`2 ^ k ≤ n / d < 2 ^ (k + 1)`. -/
def floorLog2 (n d : Nat) : Int :=
  let k : Int := (natLog2 n : Int) - (natLog2 d : Int)
  if d * 2 ^ k.toNat ≤ n * 2 ^ (-k).toNat then k else k - 1

/-- The integer nearest to `n / d`, the even one of the two when `n / d` is half-way. -/
def roundHalfEven (n d : Nat) : Nat :=
  let q := n / d
  let r := n % d
  if 2 * r < d then q
  else if d < 2 * r then q + 1
  else if q % 2 = 0 then q else q + 1

/-- Rounding of an exact result to binary64, round to nearest, ties to even: 53
significant bits, the unit in the last place never below `2 ^ (-1074)` (subnormal
numbers), and `none` when the rounded magnitude reaches `2 ^ 1024`, where the `double`
is an infinity.  `none` stands for any `double` that is not finite. -/
def roundDouble (q : ℚ) : Option ℚ :=
  if q = 0 then some 0
  else
    let n := q.num.natAbs
    let d := q.den
    let e : Int := max (floorLog2 n d - 52) (-1074)
    let m := roundHalfEven (n * 2 ^ (-e).toNat) (d * 2 ^ e.toNat)
    if 2 ^ 1024 * 2 ^ (-e).toNat ≤ m * 2 ^ e.toNat then none
    else some (mkRat (q.num.sign * ((m * 2 ^ e.toNat : Nat) : Int)) (2 ^ (-e).toNat))

/-- The `+` of two `double`s; a sum with an operand that is not finite is not finite. -/
def fadd (x y : Option ℚ) : Option ℚ :=
  match x, y with
  | some a, some b => roundDouble (a + b)
  | _, _ => none

/-- The `*` of two `double`s; a product with an operand that is not finite is not
finite. -/
def fmul (x y : Option ℚ) : Option ℚ :=
  match x, y with
  | some a, some b => roundDouble (a * b)
  | _, _ => none

/-- The member `Worker::calculateSalary` as the program computes it: the same loop,
`total += rate * quantity` being a `double` product followed by a `double` sum, each
rounded on its own. -/
def Worker.calculateSalaryDouble (w : Worker) (workTypes : List WorkType) : Option ℚ :=
  w.records.foldl
    (fun total rec =>
      match findIf workTypes rec with
      | some wt => fadd total (fmul (some wt.rate) (some rec.quantity))
      | none => total)
    (some 0)

/-- The member `PayrollSystem::getTotalPayout` as the program computes it: the same
loop, `total += wptr->calculateSalary(workTypes)` being a `double` sum. -/
def PayrollSystem.getTotalPayoutDouble (s : PayrollSystem) : Option ℚ :=
  s.workers.foldl (fun total w => fadd total (w.calculateSalaryDouble s.workTypes)) (some 0)

/-- No addition rounds when the amounts of the list are added one after the other to
the accumulator `acc`: every partial sum is a `double`. -/
def exactAccum (acc : ℚ) : List ℚ → Bool
  | [] => true
  | x :: xs => decide (roundDouble (acc + x) = some (acc + x)) && exactAccum (acc + x) xs

/-! ## Call sequences -/

/-- One call of a mutating operation of the registry, with its arguments. -/
inductive Call where
  | addWorkType (name : String) (rate : ℚ)
  | addWorker (surname : String) (pos : Position)
  | addWorkRecordToWorker (workerId workTypeId : Int) (quantity : ℚ)

/-- The state after one call. -/
def step (s : PayrollSystem) : Call → PayrollSystem
  | .addWorkType name rate => (s.addWorkType name rate).1
  | .addWorker surname pos => (s.addWorker surname pos).1
  | .addWorkRecordToWorker workerId workTypeId quantity =>
    (s.addWorkRecordToWorker workerId workTypeId quantity).1

/-- The state after a sequence of calls, made in order. -/
def exec (s : PayrollSystem) : List Call → PayrollSystem
  | [] => s
  | c :: cs => exec (step s c) cs

/-- The ids returned by the `addWorkType` calls of a sequence, in call order. -/
def workTypeIdsReturned (s : PayrollSystem) : List Call → List Int
  | [] => []
  | .addWorkType name rate :: cs =>
    (s.addWorkType name rate).2 :: workTypeIdsReturned (s.addWorkType name rate).1 cs
  | c :: cs => workTypeIdsReturned (step s c) cs

/-- The ids returned by the `addWorker` calls of a sequence, in call order. -/
def workerIdsReturned (s : PayrollSystem) : List Call → List Int
  | [] => []
  | .addWorker surname pos :: cs =>
    (s.addWorker surname pos).2 :: workerIdsReturned (s.addWorker surname pos).1 cs
  | c :: cs => workerIdsReturned (step s c) cs

/-- The call is an `addWorkType`. -/
def Call.isAddWorkType : Call → Bool
  | .addWorkType _ _ => true
  | _ => false

/-- The call is an `addWorker`. -/
def Call.isAddWorker : Call → Bool
  | .addWorker _ _ => true
  | _ => false

/-- A registry state that some sequence of calls produces from the fresh registry. -/
def Reachable (s : PayrollSystem) : Prop :=
  ∃ cs : List Call, exec PayrollSystem.fresh cs = s

/-- What the console layer guarantees about the arguments it passes to the registry:
`inputNonEmptyString` yields a non-empty string, `inputPositiveDouble` and
`inputPositiveIntLimited` a number above zero. -/
def Call.Valid : Call → Prop
  | .addWorkType name rate => name ≠ "" ∧ 0 < rate
  | .addWorker surname _ => surname ≠ ""
  | .addWorkRecordToWorker _ _ quantity => 0 < quantity

/-! ## Specification-side definitions -/

/-- Specification of the total payout: the sum of the salaries of all workers. -/
def totalPayoutSpec (s : PayrollSystem) : ℚ :=
  (s.workers.map (fun w => w.calculateSalary s.workTypes)).sum

/-- Referential integrity: every record of every worker carries the id of a work type
that is in the registry. -/
def RefsResolve (s : PayrollSystem) : Prop :=
  ∀ w ∈ s.workers, ∀ r ∈ w.records, ∃ wt ∈ s.workTypes, wt.id = r.workTypeId

/-- The value constraints of the data model: rates and quantities above zero, names and
surnames non-empty. -/
def StoredValuesOK (s : PayrollSystem) : Prop :=
  (∀ wt ∈ s.workTypes, 0 < wt.rate ∧ wt.name ≠ "") ∧
  (∀ w ∈ s.workers, w.surname ≠ "" ∧ ∀ r ∈ w.records, 0 < r.quantity)

/-- The counters are one more than the sizes of the collections, so a counter can leave
the range of `int` only once its collection holds `2^31 - 1` elements. -/
def CountersMatch (s : PayrollSystem) : Prop :=
  s.nextWorkTypeId = (s.workTypes.length : Int) + 1 ∧
  s.nextWorkerId = (s.workers.length : Int) + 1

/-! ## Sample registries -/

/-- The calls of scenario A of the specification before the record is attached. -/
def scenarioACalls : List Call :=
  [Call.addWorkType "Hour" 100, Call.addWorker "Smith" Position.Employee]

/-- The registry of scenario A before the record is attached. -/
def scenarioA0 : PayrollSystem := exec PayrollSystem.fresh scenarioACalls

/-- The registry of scenario A: one work type, one worker, one record. -/
def scenarioA : PayrollSystem :=
  exec PayrollSystem.fresh (scenarioACalls ++ [Call.addWorkRecordToWorker 1 1 5])

/-- The worker of scenario A after the record is attached. -/
def smithA : Worker :=
  { id := 1, surname := "Smith", position := Position.Employee,
    records := [{ workTypeId := 1, quantity := 5 }] }

/-- A registry with one work type and two workers of the same surname (scenario C). -/
def scenarioC : PayrollSystem :=
  exec PayrollSystem.fresh
    [Call.addWorkType "Hour" 100, Call.addWorker "Smith" Position.Employee,
      Call.addWorker "Smith" Position.Manager]

/-- The registry `scenarioC` after three units of work type 1 are recorded for worker 2. -/
def scenarioC2 : PayrollSystem :=
  exec scenarioC [Call.addWorkRecordToWorker 2 1 3]

/-- The registry `scenarioC` with five units recorded for worker 1 and three units for
worker 2, at 100 per unit. -/
def scenarioPay : PayrollSystem :=
  exec scenarioC [Call.addWorkRecordToWorker 1 1 5, Call.addWorkRecordToWorker 2 1 3]

/-- The salary of a worker of `scenarioPay` as a number. -/
def scenarioPaySalary (w : Worker) : ℚ :=
  (w.calculateSalaryDouble scenarioPay.workTypes).getD 0

/-- The `double` written `0.1`: the binary64 number nearest to one tenth. -/
def tenth : ℚ := 3602879701896397 / 36028797018963968

/-- A registry with one work type paid `0.1` per unit and three workers who have done
1, 2 and 3 units; all arguments are ones the console accepts. -/
def payoutOrder : PayrollSystem :=
  exec PayrollSystem.fresh
    [Call.addWorkType "Piece" tenth, Call.addWorker "Adams" Position.Employee,
      Call.addWorker "Brown" Position.Employee, Call.addWorker "Clark" Position.Employee,
      Call.addWorkRecordToWorker 1 1 1, Call.addWorkRecordToWorker 2 1 2,
      Call.addWorkRecordToWorker 3 1 3]

/-- The registry `payoutOrder` with the units given out the other way round: the same
three salaries, met in the reverse order. -/
def payoutOrderRev : PayrollSystem :=
  exec PayrollSystem.fresh
    [Call.addWorkType "Piece" tenth, Call.addWorker "Adams" Position.Employee,
      Call.addWorker "Brown" Position.Employee, Call.addWorker "Clark" Position.Employee,
      Call.addWorkRecordToWorker 1 1 3, Call.addWorkRecordToWorker 2 1 2,
      Call.addWorkRecordToWorker 3 1 1]

/-! ## Lookup and update lemmas -/

theorem findIdx?_eq_some_iff_get? {α : Type} (p : α → Bool) (xs : List α) (i : Nat) :
    xs.findIdx? p = some i ↔
      ∃ a, xs[i]? = some a ∧ p a = true ∧ ∀ j, j < i → ∀ x, xs[j]? = some x → p x = false := by
  rw [List.findIdx?_eq_some_iff_getElem]
  constructor
  · rintro ⟨h, hp, hlt⟩
    refine ⟨xs[i], List.getElem?_eq_getElem h, hp, ?_⟩
    intro j hj x hx
    have hjl : j < xs.length := Nat.lt_trans hj h
    rw [List.getElem?_eq_getElem hjl] at hx
    cases hx
    simpa using hlt j hj
  · rintro ⟨a, ha, hp, hlt⟩
    obtain ⟨h, rfl⟩ := List.getElem?_eq_some.mp ha
    refine ⟨h, hp, ?_⟩
    intro j hj
    have hjl : j < xs.length := Nat.lt_trans hj h
    simpa using hlt j hj xs[j] (List.getElem?_eq_getElem hjl)

theorem findIdx?_modify {α : Type} (p : α → Bool) (f : α → α) (hf : ∀ x, p (f x) = p x)
    (xs : List α) (i : Nat) : (xs.modify f i).findIdx? p = xs.findIdx? p := by
  induction xs generalizing i with
  | nil => simp
  | cons x xs ih =>
    cases i with
    | zero => simp [List.findIdx?_cons, hf]
    | succ i => simp [List.findIdx?_cons, ih]

theorem findWorkerById_eq_none_iff (s : PayrollSystem) (id : Int) :
    s.findWorkerById id = none ↔ ∀ w ∈ s.workers, w.id ≠ id := by
  simp [PayrollSystem.findWorkerById, Worker.getId]

theorem findWorkTypeById_eq_none_iff (s : PayrollSystem) (id : Int) :
    s.findWorkTypeById id = none ↔ ∀ wt ∈ s.workTypes, wt.id ≠ id := by
  simp [PayrollSystem.findWorkTypeById]

theorem findWorkerById_eq_some_iff (s : PayrollSystem) (id : Int) (i : Nat) :
    s.findWorkerById id = some i ↔
      ∃ w, s.workers[i]? = some w ∧ w.id = id ∧
        ∀ j, j < i → ∀ x, s.workers[j]? = some x → x.id ≠ id := by
  simp [PayrollSystem.findWorkerById, Worker.getId, findIdx?_eq_some_iff_get?]

theorem addWorkRecordToWorker_of_no_worker (s : PayrollSystem) (workerId workTypeId : Int)
    (quantity : ℚ) (h : s.findWorkerById workerId = none) :
    s.addWorkRecordToWorker workerId workTypeId quantity = (s, false) := by
  simp [PayrollSystem.addWorkRecordToWorker, h]

theorem addWorkRecordToWorker_of_no_workType (s : PayrollSystem) (workerId workTypeId : Int)
    (quantity : ℚ) (h : s.findWorkTypeById workTypeId = none) :
    s.addWorkRecordToWorker workerId workTypeId quantity = (s, false) := by
  unfold PayrollSystem.addWorkRecordToWorker
  cases s.findWorkerById workerId <;> simp [h]

theorem addWorkRecordToWorker_of_found (s : PayrollSystem) (workerId workTypeId : Int)
    (quantity : ℚ) (i : Nat) (wt : WorkType) (hw : s.findWorkerById workerId = some i)
    (ht : s.findWorkTypeById workTypeId = some wt) :
    s.addWorkRecordToWorker workerId workTypeId quantity =
      ({ s with
          workers := s.workers.modify
            (fun x => x.addRecord { workTypeId := workTypeId, quantity := quantity }) i },
       true) := by
  simp [PayrollSystem.addWorkRecordToWorker, hw, ht]

theorem addWorkRecordToWorker_eq_false_iff (s : PayrollSystem) (workerId workTypeId : Int)
    (quantity : ℚ) :
    (s.addWorkRecordToWorker workerId workTypeId quantity).2 = false ↔
      s.findWorkerById workerId = none ∨ s.findWorkTypeById workTypeId = none := by
  unfold PayrollSystem.addWorkRecordToWorker
  cases s.findWorkerById workerId <;> cases s.findWorkTypeById workTypeId <;> simp

/-! ## Attaching a record -/

/-- C1: `addWorkRecordToWorker` returns `false` exactly when no worker has id `workerId`
or no work type has id `workTypeId`; otherwise it returns `true`, the worker found for
`workerId` is still the one found afterwards, and its record sequence is the old one
with the single record `(workTypeId, quantity)` appended, one element longer. -/
theorem addWorkRecordToWorker_contract (s s' : PayrollSystem) (workerId workTypeId : Int)
    (quantity : ℚ) (ok : Bool)
    (h : s.addWorkRecordToWorker workerId workTypeId quantity = (s', ok)) :
    (ok = false ↔
      (¬ ∃ w ∈ s.workers, w.id = workerId) ∨ (¬ ∃ wt ∈ s.workTypes, wt.id = workTypeId)) ∧
    (ok ≠ false →
      ok = true ∧
      ∃ (i : Nat) (w w' : Worker),
        s.findWorkerById workerId = some i ∧ s.workers[i]? = some w ∧ w.id = workerId ∧
        s'.findWorkerById workerId = some i ∧ s'.workers[i]? = some w' ∧ w'.id = workerId ∧
        w'.records = w.records ++ [{ workTypeId := workTypeId, quantity := quantity }] ∧
        w'.records.length = w.records.length + 1) := by
  have hok : ok = (s.addWorkRecordToWorker workerId workTypeId quantity).2 := by rw [h]
  constructor
  · rw [hok, addWorkRecordToWorker_eq_false_iff, findWorkerById_eq_none_iff,
      findWorkTypeById_eq_none_iff]
    simp
  · intro hne
    have hne' : ¬ (s.findWorkerById workerId = none ∨ s.findWorkTypeById workTypeId = none) := by
      rw [← addWorkRecordToWorker_eq_false_iff s workerId workTypeId quantity, ← hok]
      exact hne
    obtain ⟨i, hi⟩ := Option.ne_none_iff_exists'.mp (fun hn => hne' (Or.inl hn))
    obtain ⟨wt, hwt⟩ := Option.ne_none_iff_exists'.mp (fun hn => hne' (Or.inr hn))
    rw [addWorkRecordToWorker_of_found s workerId workTypeId quantity i wt hi hwt] at h
    obtain ⟨rfl, rfl⟩ := Prod.mk.inj h
    refine ⟨rfl, ?_⟩
    obtain ⟨w, hw, hid, -⟩ := (findWorkerById_eq_some_iff s workerId i).mp hi
    refine ⟨i, w, w.addRecord { workTypeId := workTypeId, quantity := quantity },
      hi, hw, hid, ?_, ?_, hid, rfl, ?_⟩
    · rw [← hi]
      exact findIdx?_modify (fun x : Worker => x.getId == workerId)
        (fun x => x.addRecord { workTypeId := workTypeId, quantity := quantity })
        (fun x => rfl) s.workers i
    · simp [hw]
    · simp [Worker.addRecord]

/-- C10: a call of `addWorkRecordToWorker` that returns `false` leaves the registry
exactly as it was; a call that returns `true` leaves the work types and both counters
unchanged, keeps the number of workers, and changes only the worker found for
`workerId`, whose id, surname and position stay the same. -/
theorem addWorkRecordToWorker_frame (s s' : PayrollSystem) (workerId workTypeId : Int)
    (quantity : ℚ) (ok : Bool)
    (h : s.addWorkRecordToWorker workerId workTypeId quantity = (s', ok)) :
    (ok = false → s' = s) ∧
    (ok = true →
      s'.workTypes = s.workTypes ∧ s'.nextWorkerId = s.nextWorkerId ∧
      s'.nextWorkTypeId = s.nextWorkTypeId ∧ s'.workers.length = s.workers.length ∧
      ∃ i : Nat, s.findWorkerById workerId = some i ∧
        (∀ j : Nat, j ≠ i → s'.workers[j]? = s.workers[j]?) ∧
        ∃ w w' : Worker, s.workers[i]? = some w ∧ s'.workers[i]? = some w' ∧
          w.id = workerId ∧ w'.id = w.id ∧ w'.surname = w.surname ∧
          w'.position = w.position) := by
  have hok : ok = (s.addWorkRecordToWorker workerId workTypeId quantity).2 := by rw [h]
  constructor
  · intro hf
    rw [hok, addWorkRecordToWorker_eq_false_iff] at hf
    rcases hf with hf | hf
    · rw [addWorkRecordToWorker_of_no_worker s workerId workTypeId quantity hf] at h
      exact (Prod.mk.inj h).1.symm
    · rw [addWorkRecordToWorker_of_no_workType s workerId workTypeId quantity hf] at h
      exact (Prod.mk.inj h).1.symm
  · intro ht
    have hne' : ¬ (s.findWorkerById workerId = none ∨ s.findWorkTypeById workTypeId = none) := by
      rw [← addWorkRecordToWorker_eq_false_iff s workerId workTypeId quantity, ← hok, ht]
      simp
    obtain ⟨i, hi⟩ := Option.ne_none_iff_exists'.mp (fun hn => hne' (Or.inl hn))
    obtain ⟨wt, hwt⟩ := Option.ne_none_iff_exists'.mp (fun hn => hne' (Or.inr hn))
    rw [addWorkRecordToWorker_of_found s workerId workTypeId quantity i wt hi hwt] at h
    obtain ⟨rfl, -⟩ := Prod.mk.inj h
    obtain ⟨w, hw, hid, -⟩ := (findWorkerById_eq_some_iff s workerId i).mp hi
    refine ⟨rfl, rfl, rfl, by simp, i, hi, ?_, w,
      w.addRecord { workTypeId := workTypeId, quantity := quantity }, hw, ?_, hid, rfl, rfl, rfl⟩
    · intro j hj
      simp [List.getElem?_modify_ne _ _ (Ne.symm hj)]
    · simp [hw]

/-! ## Salary arithmetic -/

theorem foldl_add_eq_sum {α : Type} (f : α → ℚ) (xs : List α) (a : ℚ) :
    xs.foldl (fun total x => total + f x) a = a + (xs.map f).sum := by
  induction xs generalizing a with
  | nil => simp
  | cons x xs ih => simp [ih, add_assoc]

theorem getTotalPayout_eq_totalPayoutSpec (s : PayrollSystem) :
    s.getTotalPayout = totalPayoutSpec s := by
  unfold PayrollSystem.getTotalPayout totalPayoutSpec
  rw [foldl_add_eq_sum]
  simp

/-- The rounding at a few telling arguments: a number that is a `double` already, ties
that go to the even neighbour, the largest `double`, the overflow to infinity from half
a unit above it, and the subnormal range. -/
theorem roundDouble_samples :
    roundDouble 500 = some 500 ∧
    roundDouble (3 / 10) = some (5404319552844595 / 18014398509481984) ∧
    roundDouble (2 ^ 53 + 1) = some (2 ^ 53) ∧
    roundDouble (2 ^ 53 + 3) = some (2 ^ 53 + 4) ∧
    roundDouble (-(2 ^ 53 + 3)) = some (-(2 ^ 53 + 4)) ∧
    roundDouble ((2 ^ 53 - 1) * 2 ^ 971) = some ((2 ^ 53 - 1) * 2 ^ 971) ∧
    roundDouble ((2 ^ 53 - 1) * 2 ^ 971 + 2 ^ 970) = none ∧
    roundDouble ((2 ^ 53 - 1) * 2 ^ 971 + 2 ^ 970 - 1) = some ((2 ^ 53 - 1) * 2 ^ 971) ∧
    roundDouble (1 / 2 ^ 1074) = some (1 / 2 ^ 1074) ∧
    roundDouble (1 / 2 ^ 1075) = some 0 ∧
    roundDouble (3 / 2 ^ 1075) = some (2 / 2 ^ 1074) :=
  ⟨by decide!, by decide!, by decide!, by decide!, by decide!, by decide!, by decide!,
    by decide!, by decide!, by decide!, by decide!⟩

theorem foldl_fadd_exact (amounts : List ℚ) (acc : ℚ) (h : exactAccum acc amounts = true) :
    amounts.foldl (fun total x => fadd total (some x)) (some acc)
      = some (acc + amounts.sum) := by
  induction amounts generalizing acc with
  | nil => simp
  | cons x xs ih =>
    simp only [exactAccum, Bool.and_eq_true, decide_eq_true_eq] at h
    have hstep : fadd (some acc) (some x) = some (acc + x) := h.1
    rw [List.foldl_cons, List.sum_cons, hstep, ih _ h.2, add_assoc]

theorem getTotalPayoutDouble_of_salaries (s : PayrollSystem) (sal : Worker → ℚ)
    (hsal : ∀ w ∈ s.workers, w.calculateSalaryDouble s.workTypes = some (sal w)) :
    s.getTotalPayoutDouble =
      (s.workers.map sal).foldl (fun total x => fadd total (some x)) (some 0) := by
  unfold PayrollSystem.getTotalPayoutDouble
  rw [List.foldl_map]
  apply List.foldl_ext
  intro total w hw
  rw [hsal w hw]

theorem getTotalPayoutDouble_exact (s : PayrollSystem) (sal : Worker → ℚ)
    (hsal : ∀ w ∈ s.workers, w.calculateSalaryDouble s.workTypes = some (sal w))
    (hexact : exactAccum 0 (s.workers.map sal) = true) :
    s.getTotalPayoutDouble = some ((s.workers.map sal).sum) := by
  rw [getTotalPayoutDouble_of_salaries s sal hsal, foldl_fadd_exact _ 0 hexact, zero_add]

/-- C4, as the code has it: `getTotalPayout` adds the salaries to a `double` accumulator
that starts at 0, one worker after the other in the order of the collection, so a
further worker at the end adds its salary to the total so far, and the total is 0 when
there are no workers.  When no addition of that accumulation rounds, the total is the
exact sum of the salaries, and it is the same for every permutation of the workers
whose accumulation does not round either. -/
theorem getTotalPayoutDouble_accumulates (s : PayrollSystem) :
    s.getTotalPayoutDouble =
      (s.workers.map (fun w => w.calculateSalaryDouble s.workTypes)).foldl fadd (some 0) ∧
    (∀ w : Worker,
      ({ s with workers := s.workers ++ [w] } : PayrollSystem).getTotalPayoutDouble =
        fadd s.getTotalPayoutDouble (w.calculateSalaryDouble s.workTypes)) ∧
    ({ s with workers := [] } : PayrollSystem).getTotalPayoutDouble = some 0 ∧
    (∀ sal : Worker → ℚ,
      (∀ w ∈ s.workers, w.calculateSalaryDouble s.workTypes = some (sal w)) →
      exactAccum 0 (s.workers.map sal) = true →
      s.getTotalPayoutDouble = some ((s.workers.map sal).sum)) ∧
    (∀ (ws : List Worker) (sal : Worker → ℚ), ws.Perm s.workers →
      (∀ w ∈ s.workers, w.calculateSalaryDouble s.workTypes = some (sal w)) →
      exactAccum 0 (s.workers.map sal) = true → exactAccum 0 (ws.map sal) = true →
      ({ s with workers := ws } : PayrollSystem).getTotalPayoutDouble
        = s.getTotalPayoutDouble) := by
  refine ⟨?_, ?_, ?_, ?_, ?_⟩
  · simp [PayrollSystem.getTotalPayoutDouble, List.foldl_map]
  · intro w
    simp [PayrollSystem.getTotalPayoutDouble, List.foldl_append]
  · simp [PayrollSystem.getTotalPayoutDouble]
  · intro sal hsal hexact
    exact getTotalPayoutDouble_exact s sal hsal hexact
  · intro ws sal hperm hsal hexact hexact'
    have hsal' : ∀ w ∈ ({ s with workers := ws } : PayrollSystem).workers,
        w.calculateSalaryDouble ({ s with workers := ws } : PayrollSystem).workTypes
          = some (sal w) :=
      fun w hw => hsal w (hperm.subset hw)
    rw [getTotalPayoutDouble_exact s sal hsal hexact,
      getTotalPayoutDouble_exact { s with workers := ws } sal hsal' hexact']
    exact congrArg some (List.Perm.sum_eq (List.Perm.map sal hperm))

/-- C4, as stated, fails: with a rate of `0.1` and workers who have done 1, 2 and 3
units, `getTotalPayout` is 0.6000000000000001 (5404319552844596 / 2^53) for the workers
in the order of their creation and 0.6 (5404319552844595 / 2^53) for the same workers in
the reverse order, and also for the registry in which the units are recorded the other
way round. -/
theorem getTotalPayout_depends_on_order :
    roundDouble (1 / 10) = some tenth ∧ roundDouble tenth = some tenth ∧
    payoutOrder.workers.reverse.Perm payoutOrder.workers ∧
    payoutOrder.getTotalPayoutDouble = some (5404319552844596 / 9007199254740992) ∧
    ({ payoutOrder with workers := payoutOrder.workers.reverse }
        : PayrollSystem).getTotalPayoutDouble
      = some (5404319552844595 / 9007199254740992) ∧
    ({ payoutOrder with workers := payoutOrder.workers.reverse }
        : PayrollSystem).getTotalPayoutDouble ≠ payoutOrder.getTotalPayoutDouble ∧
    payoutOrderRev.workers.map (fun w => w.calculateSalaryDouble payoutOrderRev.workTypes)
      = (payoutOrder.workers.map
          (fun w => w.calculateSalaryDouble payoutOrder.workTypes)).reverse ∧
    payoutOrderRev.getTotalPayoutDouble = some (5404319552844595 / 9007199254740992) :=
  ⟨by decide!, by decide!, List.reverse_perm _, by decide!, by decide!, by decide!,
    by decide!, by decide!⟩

/-! ## Call sequences: what every call preserves -/

theorem exec_append (s : PayrollSystem) (cs ds : List Call) :
    exec s (cs ++ ds) = exec (exec s cs) ds := by
  induction cs generalizing s with
  | nil => rfl
  | cons c cs ih => simp [exec, ih]

theorem addWorkRecordToWorker_fields (s : PayrollSystem) (workerId workTypeId : Int)
    (quantity : ℚ) :
    (s.addWorkRecordToWorker workerId workTypeId quantity).1.workTypes = s.workTypes ∧
    (s.addWorkRecordToWorker workerId workTypeId quantity).1.nextWorkTypeId
      = s.nextWorkTypeId ∧
    (s.addWorkRecordToWorker workerId workTypeId quantity).1.nextWorkerId
      = s.nextWorkerId := by
  unfold PayrollSystem.addWorkRecordToWorker
  cases s.findWorkerById workerId <;> cases s.findWorkTypeById workTypeId <;> simp

theorem mem_modify {α : Type} (f : α → α) (xs : List α) (i : Nat) (y : α)
    (hy : y ∈ xs.modify f i) : y ∈ xs ∨ ∃ x ∈ xs, y = f x := by
  induction xs generalizing i with
  | nil => simp at hy
  | cons x xs ih =>
    cases i with
    | zero =>
      simp only [List.modify_zero_cons, List.mem_cons] at hy
      rcases hy with rfl | hy
      · exact Or.inr ⟨x, by simp, rfl⟩
      · exact Or.inl (by simp [hy])
    | succ i =>
      simp only [List.modify_succ_cons, List.mem_cons] at hy
      rcases hy with rfl | hy
      · exact Or.inl (by simp)
      · rcases ih i hy with h | ⟨x', hx', rfl⟩
        · exact Or.inl (by simp [h])
        · exact Or.inr ⟨x', by simp [hx'], rfl⟩

theorem addWorkRecordToWorker_workers_mem (s : PayrollSystem) (workerId workTypeId : Int)
    (quantity : ℚ) (w : Worker)
    (hw : w ∈ (s.addWorkRecordToWorker workerId workTypeId quantity).1.workers) :
    w ∈ s.workers ∨
      (s.findWorkTypeById workTypeId ≠ none ∧
        ∃ x ∈ s.workers, w = x.addRecord { workTypeId := workTypeId, quantity := quantity }) := by
  unfold PayrollSystem.addWorkRecordToWorker at hw
  cases hi : s.findWorkerById workerId with
  | none =>
    rw [hi] at hw
    exact Or.inl hw
  | some i =>
    cases ht : s.findWorkTypeById workTypeId with
    | none =>
      rw [hi, ht] at hw
      exact Or.inl hw
    | some wt =>
      rw [hi, ht] at hw
      rcases mem_modify _ _ _ _ hw with h | h
      · exact Or.inl h
      · exact Or.inr ⟨by simp, h⟩

theorem step_workTypes (s : PayrollSystem) (c : Call) :
    ∃ extra, (step s c).workTypes = s.workTypes ++ extra := by
  cases c with
  | addWorkType name rate => exact ⟨_, rfl⟩
  | addWorker surname pos => exact ⟨[], by simp [step, PayrollSystem.addWorker]⟩
  | addWorkRecordToWorker a b q =>
    exact ⟨[], by simp [step, (addWorkRecordToWorker_fields s a b q).1]⟩

theorem exec_workTypes (s : PayrollSystem) (cs : List Call) :
    ∃ extra, (exec s cs).workTypes = s.workTypes ++ extra := by
  induction cs generalizing s with
  | nil => exact ⟨[], by simp [exec]⟩
  | cons c cs ih =>
    obtain ⟨e1, h1⟩ := step_workTypes s c
    obtain ⟨e2, h2⟩ := ih (step s c)
    exact ⟨e1 ++ e2, by simp [exec, h2, h1]⟩

theorem step_refsResolve (s : PayrollSystem) (c : Call) (h : RefsResolve s) :
    RefsResolve (step s c) := by
  cases c with
  | addWorkType name rate =>
    intro w hw r hr
    obtain ⟨wt, hwt, hid⟩ := h w hw r hr
    exact ⟨wt, by simp [step, PayrollSystem.addWorkType, hwt], hid⟩
  | addWorker surname pos =>
    intro w hw r hr
    simp only [step, PayrollSystem.addWorker, List.mem_append, List.mem_singleton] at hw
    rcases hw with hw | rfl
    · exact h w hw r hr
    · simp at hr
  | addWorkRecordToWorker a b q =>
    intro w hw r hr
    simp only [step, (addWorkRecordToWorker_fields s a b q).1]
    rcases addWorkRecordToWorker_workers_mem s a b q w hw with hw' | ⟨hb, x, hx, rfl⟩
    · exact h w hw' r hr
    · simp only [Worker.addRecord, List.mem_append, List.mem_singleton] at hr
      rcases hr with hr | rfl
      · exact h x hx r hr
      · obtain ⟨wt, hwt⟩ := Option.ne_none_iff_exists'.mp hb
        have hf := List.find?_some hwt
        exact ⟨wt, List.mem_of_find?_eq_some hwt, by simpa using hf⟩

theorem exec_refsResolve (s : PayrollSystem) (cs : List Call) (h : RefsResolve s) :
    RefsResolve (exec s cs) := by
  induction cs generalizing s with
  | nil => exact h
  | cons c cs ih => exact ih (step s c) (step_refsResolve s c h)

theorem fresh_refsResolve : RefsResolve PayrollSystem.fresh := by
  intro w hw
  simp [PayrollSystem.fresh] at hw

theorem reachable_refsResolve (s : PayrollSystem) (h : Reachable s) : RefsResolve s := by
  obtain ⟨cs, rfl⟩ := h
  exact exec_refsResolve _ cs fresh_refsResolve

theorem records_resolve_of_reachable (s : PayrollSystem) (h : Reachable s) (w : Worker)
    (hw : w ∈ s.workers) (r : WorkRecord) (hr : r ∈ w.records) :
    findIf s.workTypes r ≠ none := by
  obtain ⟨wt, hwt, hid⟩ := reachable_refsResolve s h w hw r hr
  simp only [findIf, Ne, List.find?_eq_none, not_forall]
  exact ⟨wt, hwt, by simp [hid]⟩

/-- C3: in every registry state reachable from the fresh registry, every record of every
worker has the id of a work type of the registry, so `findWorkTypeById` finds it and the
`find_if` of `calculateSalary` does not end at `workTypes.end()` (no record is skipped). -/
theorem records_reference_existing (s : PayrollSystem) (h : Reachable s) (w : Worker)
    (hw : w ∈ s.workers) (r : WorkRecord) (hr : r ∈ w.records) :
    (∃ wt ∈ s.workTypes, wt.id = r.workTypeId) ∧
    s.findWorkTypeById r.workTypeId ≠ none ∧
    findIf s.workTypes r ≠ none := by
  have hex := reachable_refsResolve s h w hw r hr
  refine ⟨hex, ?_, ?_⟩
  · rw [Ne, findWorkTypeById_eq_none_iff]
    obtain ⟨wt, hwt, hid⟩ := hex
    exact fun hall => hall wt hwt hid
  · exact records_resolve_of_reachable s h w hw r hr

/-! ## Identifier assignment -/

theorem range_succ_map_add (a : Int) (n : Nat) :
    (List.range (n + 1)).map (fun k : Nat => a + (k : Int)) =
      a :: (List.range n).map (fun k : Nat => a + 1 + (k : Int)) := by
  rw [List.range_succ_eq_map]
  simp only [List.map_cons, List.map_map, Nat.cast_zero, add_zero, List.cons.injEq, true_and]
  apply List.map_congr_left
  intro k _
  simp only [Function.comp_apply, Nat.cast_succ]
  ring

theorem workTypeIdsReturned_eq (s : PayrollSystem) (cs : List Call) :
    workTypeIdsReturned s cs =
      (List.range (cs.countP Call.isAddWorkType)).map
        (fun k : Nat => s.nextWorkTypeId + (k : Int)) := by
  induction cs generalizing s with
  | nil => simp [workTypeIdsReturned]
  | cons c cs ih =>
    cases c with
    | addWorkType name rate =>
      simp only [workTypeIdsReturned, ih, Call.isAddWorkType, List.countP_cons_of_pos,
        range_succ_map_add]
      simp [PayrollSystem.addWorkType]
    | addWorker surname pos =>
      simp [workTypeIdsReturned, ih, Call.isAddWorkType, step, PayrollSystem.addWorker]
    | addWorkRecordToWorker a b q =>
      simp [workTypeIdsReturned, ih, Call.isAddWorkType, step,
        (addWorkRecordToWorker_fields s a b q).2.1]

theorem workerIdsReturned_eq (s : PayrollSystem) (cs : List Call) :
    workerIdsReturned s cs =
      (List.range (cs.countP Call.isAddWorker)).map
        (fun k : Nat => s.nextWorkerId + (k : Int)) := by
  induction cs generalizing s with
  | nil => simp [workerIdsReturned]
  | cons c cs ih =>
    cases c with
    | addWorkType name rate =>
      simp [workerIdsReturned, ih, Call.isAddWorker, step, PayrollSystem.addWorkType]
    | addWorker surname pos =>
      simp only [workerIdsReturned, ih, Call.isAddWorker, List.countP_cons_of_pos,
        range_succ_map_add]
      simp [PayrollSystem.addWorker]
    | addWorkRecordToWorker a b q =>
      simp [workerIdsReturned, ih, Call.isAddWorker, step,
        (addWorkRecordToWorker_fields s a b q).2.2]

theorem pairwise_lt_range_map (a : Int) (n : Nat) :
    ((List.range n).map (fun k : Nat => a + (k : Int))).Pairwise (fun x y => x < y) := by
  rw [List.pairwise_map]
  exact (List.pairwise_lt_range n).imp (fun h => by simpa using h)

theorem exec_workTypes_ids (s : PayrollSystem) (cs : List Call) :
    (exec s cs).workTypes.map (fun wt => wt.id) =
      s.workTypes.map (fun wt => wt.id) ++ workTypeIdsReturned s cs := by
  induction cs generalizing s with
  | nil => simp [exec, workTypeIdsReturned]
  | cons c cs ih =>
    cases c with
    | addWorkType name rate =>
      simp [exec, workTypeIdsReturned, ih, step, PayrollSystem.addWorkType]
    | addWorker surname pos =>
      simp [exec, workTypeIdsReturned, ih, step, PayrollSystem.addWorker]
    | addWorkRecordToWorker a b q =>
      simp [exec, workTypeIdsReturned, ih, step, (addWorkRecordToWorker_fields s a b q).1]

theorem reachable_workTypes_nodup (cs : List Call) :
    ((exec PayrollSystem.fresh cs).workTypes.map (fun wt => wt.id)).Nodup := by
  rw [exec_workTypes_ids, workTypeIdsReturned_eq]
  simp only [PayrollSystem.fresh, List.map_nil, List.nil_append]
  exact (pairwise_lt_range_map 1 _).imp (fun h => ne_of_lt h)

theorem find?_of_nodup_ids (wts : List WorkType) (h : (wts.map (fun wt => wt.id)).Nodup)
    (wt : WorkType) (hwt : wt ∈ wts) : wts.find? (fun x => x.id == wt.id) = some wt := by
  induction wts with
  | nil => simp at hwt
  | cons x xs ih =>
    simp only [List.map_cons, List.nodup_cons, List.mem_map, not_exists, not_and] at h
    rcases List.mem_cons.mp hwt with rfl | hmem
    · simp
    · have hne : x.id ≠ wt.id := fun he => h.1 wt hmem he.symm
      simp [List.find?_cons, hne, ih h.2 hmem]

/-- C5: from the fresh registry and for every interleaving of calls, the ids returned by
the `addWorkType` calls are 1, 2, 3, ... in call order, and so are the ids returned by
the `addWorker` calls; each sequence is strictly increasing and is the same as if the
calls of the other kinds were left out. -/
theorem ids_returned_sequential (cs : List Call) :
    workTypeIdsReturned PayrollSystem.fresh cs =
      (List.range (cs.countP Call.isAddWorkType)).map (fun k : Nat => (k : Int) + 1) ∧
    workerIdsReturned PayrollSystem.fresh cs =
      (List.range (cs.countP Call.isAddWorker)).map (fun k : Nat => (k : Int) + 1) ∧
    (workTypeIdsReturned PayrollSystem.fresh cs).Pairwise (fun x y => x < y) ∧
    (workerIdsReturned PayrollSystem.fresh cs).Pairwise (fun x y => x < y) ∧
    workTypeIdsReturned PayrollSystem.fresh (cs.filter Call.isAddWorkType) =
      workTypeIdsReturned PayrollSystem.fresh cs ∧
    workerIdsReturned PayrollSystem.fresh (cs.filter Call.isAddWorker) =
      workerIdsReturned PayrollSystem.fresh cs := by
  have hfun : (fun k : Nat => (1 : Int) + (k : Int)) = (fun k : Nat => (k : Int) + 1) := by
    funext k
    ring
  refine ⟨?_, ?_, ?_, ?_, ?_, ?_⟩
  · rw [workTypeIdsReturned_eq]
    simp [PayrollSystem.fresh, hfun]
  · rw [workerIdsReturned_eq]
    simp [PayrollSystem.fresh, hfun]
  · rw [workTypeIdsReturned_eq]
    exact pairwise_lt_range_map _ _
  · rw [workerIdsReturned_eq]
    exact pairwise_lt_range_map _ _
  · rw [workTypeIdsReturned_eq, workTypeIdsReturned_eq, List.countP_filter]
    simp
  · rw [workerIdsReturned_eq, workerIdsReturned_eq, List.countP_filter]
    simp

/-- C6: in a reachable registry, the work type created by an `addWorkType(name, rate)`
call that returned `id` is what `findWorkTypeById(id)` returns after any further calls,
with that id, name and rate; the ids in the collection are pairwise different and every
stored work type is found under its own id; and `findWorkTypeById` finds nothing exactly
for the ids that no `addWorkType` call has returned. -/
theorem workType_lookup_stable (cs cs' : List Call) (name : String) (rate : ℚ) :
    (exec ((exec PayrollSystem.fresh cs).addWorkType name rate).1 cs').findWorkTypeById
        ((exec PayrollSystem.fresh cs).addWorkType name rate).2 =
      some { id := ((exec PayrollSystem.fresh cs).addWorkType name rate).2,
             name := name, rate := rate } ∧
    ((exec PayrollSystem.fresh cs).workTypes.map (fun wt => wt.id)).Nodup ∧
    (∀ wt ∈ (exec PayrollSystem.fresh cs).workTypes,
      (exec PayrollSystem.fresh cs).findWorkTypeById wt.id = some wt) ∧
    (∀ id : Int, (exec PayrollSystem.fresh cs).findWorkTypeById id = none ↔
      id ∉ workTypeIdsReturned PayrollSystem.fresh cs) := by
  refine ⟨?_, reachable_workTypes_nodup cs, ?_, ?_⟩
  · have hexec : exec ((exec PayrollSystem.fresh cs).addWorkType name rate).1 cs' =
        exec PayrollSystem.fresh (cs ++ Call.addWorkType name rate :: cs') := by
      rw [exec_append]
      rfl
    obtain ⟨extra, hextra⟩ :=
      exec_workTypes ((exec PayrollSystem.fresh cs).addWorkType name rate).1 cs'
    have hmem : WorkType.mk ((exec PayrollSystem.fresh cs).addWorkType name rate).2 name rate ∈
        (exec ((exec PayrollSystem.fresh cs).addWorkType name rate).1 cs').workTypes := by
      rw [hextra]
      simp [PayrollSystem.addWorkType]
    have hnodup := reachable_workTypes_nodup (cs ++ Call.addWorkType name rate :: cs')
    rw [← hexec] at hnodup
    exact find?_of_nodup_ids _ hnodup _ hmem
  · intro wt hwt
    exact find?_of_nodup_ids _ (reachable_workTypes_nodup cs) wt hwt
  · intro id
    rw [findWorkTypeById_eq_none_iff, ← List.nil_append (workTypeIdsReturned _ cs)]
    have h := exec_workTypes_ids PayrollSystem.fresh cs
    simp only [PayrollSystem.fresh, List.map_nil] at h
    simp only [PayrollSystem.fresh]
    rw [← h]
    simp only [List.mem_map, not_exists, not_and]

/-! ## Lookup by surname -/

/-- C7: `findWorkerBySurname` returns the earliest worker of the collection whose surname
equals the argument exactly, and `nullptr` exactly when no worker has that surname; when
two workers of one surname are added in a row to a registry without that surname, the
first of the two, the one with the smaller id, is returned; a surname that differs in
case or by a blank is not matched. -/
theorem findWorkerBySurname_first (s : PayrollSystem) (surname : String) :
    (s.findWorkerBySurname surname = none ↔ ∀ w ∈ s.workers, w.surname ≠ surname) ∧
    (∀ i : Nat, s.findWorkerBySurname surname = some i ↔
      ∃ w, s.workers[i]? = some w ∧ w.surname = surname ∧
        ∀ j, j < i → ∀ x, s.workers[j]? = some x → x.surname ≠ surname) ∧
    (∀ p1 p2 : Position, (∀ w ∈ s.workers, w.surname ≠ surname) →
      ∃ i : Nat,
        ((s.addWorker surname p1).1.addWorker surname p2).1.findWorkerBySurname surname
          = some i ∧
        ((s.addWorker surname p1).1.addWorker surname p2).1.workers[i]? =
          some { id := (s.addWorker surname p1).2, surname := surname, position := p1 } ∧
        (s.addWorker surname p1).2 < ((s.addWorker surname p1).1.addWorker surname p2).2) ∧
    ((PayrollSystem.fresh.addWorker "Smith" Position.Manager).1.findWorkerBySurname "smith"
        = none ∧
      (PayrollSystem.fresh.addWorker "Smith" Position.Manager).1.findWorkerBySurname "Smith "
        = none) := by
  refine ⟨?_, ?_, ?_, ?_⟩
  · simp [PayrollSystem.findWorkerBySurname, Worker.getSurname]
  · intro i
    simp [PayrollSystem.findWorkerBySurname, Worker.getSurname, findIdx?_eq_some_iff_get?]
  · intro p1 p2 hnone
    have hfind : s.workers.findIdx? (fun w => w.getSurname == surname) = none := by
      simpa [Worker.getSurname] using hnone
    refine ⟨s.workers.length, ?_, ?_, ?_⟩
    · simp only [PayrollSystem.findWorkerBySurname, PayrollSystem.addWorker,
        List.append_assoc, List.findIdx?_append, hfind]
      simp [List.findIdx?_cons, Worker.getSurname]
    · have hws : ((s.addWorker surname p1).1.addWorker surname p2).1.workers =
          s.workers ++ [Worker.mk s.nextWorkerId surname p1 [],
            Worker.mk (s.nextWorkerId + 1) surname p2 []] := by
        simp [PayrollSystem.addWorker]
      rw [hws, List.getElem?_append_right (le_refl _)]
      simp [PayrollSystem.addWorker]
    · simp [PayrollSystem.addWorker]
  · constructor <;> decide

/-! ## Adding a work type does not change salaries -/

theorem findIf_append_of_ne_none (workTypes extra : List WorkType) (r : WorkRecord)
    (h : findIf workTypes r ≠ none) : findIf (workTypes ++ extra) r = findIf workTypes r := by
  obtain ⟨wt, hwt⟩ := Option.ne_none_iff_exists'.mp h
  unfold findIf at hwt ⊢
  simp [List.find?_append, hwt]

theorem calculateSalary_append (w : Worker) (workTypes extra : List WorkType)
    (h : ∀ r ∈ w.records, findIf workTypes r ≠ none) :
    w.calculateSalary (workTypes ++ extra) = w.calculateSalary workTypes := by
  unfold Worker.calculateSalary
  apply List.foldl_ext
  intro total r hr
  rw [findIf_append_of_ne_none workTypes extra r (h r hr)]

/-- C8: in a reachable registry, `addWorkType` leaves the worker collection as it is, the
salary of every worker computed against the enlarged work-type collection equals the
salary computed before the call, and so `getTotalPayout` is unchanged. -/
theorem addWorkType_preserves_salary (s : PayrollSystem) (h : Reachable s) (name : String)
    (rate : ℚ) :
    (s.addWorkType name rate).1.workers = s.workers ∧
    (∀ w ∈ s.workers,
      w.calculateSalary (s.addWorkType name rate).1.workTypes
        = w.calculateSalary s.workTypes) ∧
    (s.addWorkType name rate).1.getTotalPayout = s.getTotalPayout := by
  have hsal : ∀ w ∈ s.workers,
      w.calculateSalary (s.addWorkType name rate).1.workTypes
        = w.calculateSalary s.workTypes := by
    intro w hw
    exact calculateSalary_append w s.workTypes _
      (fun r hr => (records_resolve_of_reachable s h w hw r hr))
  refine ⟨rfl, hsal, ?_⟩
  rw [getTotalPayout_eq_totalPayoutSpec, getTotalPayout_eq_totalPayoutSpec]
  unfold totalPayoutSpec
  exact congrArg List.sum (List.map_congr_left hsal)

/-! ## Value constraints -/

theorem step_storedValuesOK (s : PayrollSystem) (c : Call) (hc : c.Valid)
    (h : StoredValuesOK s) : StoredValuesOK (step s c) := by
  obtain ⟨hwt, hw⟩ := h
  cases c with
  | addWorkType name rate =>
    refine ⟨?_, hw⟩
    intro wt hmem
    simp only [step, PayrollSystem.addWorkType, List.mem_append, List.mem_singleton] at hmem
    rcases hmem with hmem | rfl
    · exact hwt wt hmem
    · exact ⟨hc.2, hc.1⟩
  | addWorker surname pos =>
    refine ⟨hwt, ?_⟩
    intro w hmem
    simp only [step, PayrollSystem.addWorker, List.mem_append, List.mem_singleton] at hmem
    rcases hmem with hmem | rfl
    · exact hw w hmem
    · exact ⟨hc, by simp⟩
  | addWorkRecordToWorker a b q =>
    refine ⟨by simpa [step, (addWorkRecordToWorker_fields s a b q).1] using hwt, ?_⟩
    intro w hmem
    rcases addWorkRecordToWorker_workers_mem s a b q w hmem with hmem' | ⟨-, x, hx, rfl⟩
    · exact hw w hmem'
    · refine ⟨(hw x hx).1, ?_⟩
      intro r hr
      simp only [Worker.addRecord, List.mem_append, List.mem_singleton] at hr
      rcases hr with hr | rfl
      · exact (hw x hx).2 r hr
      · exact hc

theorem exec_storedValuesOK (s : PayrollSystem) (cs : List Call) (hcs : ∀ c ∈ cs, c.Valid)
    (h : StoredValuesOK s) : StoredValuesOK (exec s cs) := by
  induction cs generalizing s with
  | nil => exact h
  | cons c cs ih =>
    exact ih (step s c) (fun d hd => hcs d (List.mem_cons_of_mem c hd))
      (step_storedValuesOK s c (hcs c (List.mem_cons_self c cs)) h)

/-- C9, as the code has it: the registry stores whatever values it is given, so the
value constraints hold for the calls whose arguments the caller has validated: after any
sequence of calls with non-empty names and surnames and with rates and quantities above
zero, every stored work type, worker and record satisfies the constraints. -/
theorem validated_calls_store_valid_values (cs : List Call) (hcs : ∀ c ∈ cs, c.Valid) :
    StoredValuesOK (exec PayrollSystem.fresh cs) := by
  apply exec_storedValuesOK _ cs hcs
  constructor <;> intro x hx <;> simp [PayrollSystem.fresh] at hx

/-- C9, as stated, fails: three calls with an empty name, a zero rate, an empty surname
and a negative quantity are all accepted and stored unchanged. -/
theorem core_stores_unvalidated_values :
    exec PayrollSystem.fresh
        [Call.addWorkType "" 0, Call.addWorker "" Position.Employee,
          Call.addWorkRecordToWorker 1 1 (-1)] =
      { workTypes := [{ id := 1, name := "", rate := 0 }],
        workers := [{ id := 1, surname := "", position := Position.Employee,
                      records := [{ workTypeId := 1, quantity := -1 }] }],
        nextWorkerId := 2, nextWorkTypeId := 2 } ∧
    ¬ StoredValuesOK (exec PayrollSystem.fresh
        [Call.addWorkType "" 0, Call.addWorker "" Position.Employee,
          Call.addWorkRecordToWorker 1 1 (-1)]) := by
  have hstate : exec PayrollSystem.fresh
        [Call.addWorkType "" 0, Call.addWorker "" Position.Employee,
          Call.addWorkRecordToWorker 1 1 (-1)] =
      { workTypes := [{ id := 1, name := "", rate := 0 }],
        workers := [{ id := 1, surname := "", position := Position.Employee,
                      records := [{ workTypeId := 1, quantity := -1 }] }],
        nextWorkerId := 2, nextWorkTypeId := 2 } := rfl
  refine ⟨hstate, ?_⟩
  rw [hstate]
  intro h
  exact absurd (h.1 _ (List.mem_singleton.mpr rfl)).1 (lt_irrefl 0)

/-! ## The counters follow the collection sizes -/

theorem step_countersMatch (s : PayrollSystem) (c : Call) (h : CountersMatch s) :
    CountersMatch (step s c) := by
  obtain ⟨h1, h2⟩ := h
  cases c with
  | addWorkType name rate =>
    exact ⟨by simp [step, PayrollSystem.addWorkType, h1], by
      simp [step, PayrollSystem.addWorkType, h2]⟩
  | addWorker surname pos =>
    exact ⟨by simp [step, PayrollSystem.addWorker, h1], by
      simp [step, PayrollSystem.addWorker, h2]⟩
  | addWorkRecordToWorker a b q =>
    have hf := addWorkRecordToWorker_fields s a b q
    have hlen : (s.addWorkRecordToWorker a b q).1.workers.length = s.workers.length := by
      unfold PayrollSystem.addWorkRecordToWorker
      cases s.findWorkerById a <;> cases s.findWorkTypeById b <;> simp
    exact ⟨by simp [step, hf.1, hf.2.1, h1], by simp [step, hf.2.2, hlen, h2]⟩

theorem reachable_countersMatch (s : PayrollSystem) (h : Reachable s) : CountersMatch s := by
  obtain ⟨cs, rfl⟩ := h
  have hgen : ∀ (t : PayrollSystem), CountersMatch t → CountersMatch (exec t cs) := by
    induction cs with
    | nil => exact fun t ht => ht
    | cons c cs ih => exact fun t ht => ih (step t c) (step_countersMatch t c ht)
  exact hgen _ ⟨by simp [PayrollSystem.fresh], by simp [PayrollSystem.fresh]⟩

/-! ## The statements at concrete registries -/

/-- Scenario A: attaching five units of work type 1 to worker 1 succeeds and appends the
record. -/
theorem addWorkRecordToWorker_contract_witness :
    scenarioA0.addWorkRecordToWorker 1 1 5 = (scenarioA, true) ∧
    ((true = false ↔
      (¬ ∃ w ∈ scenarioA0.workers, w.id = 1) ∨ (¬ ∃ wt ∈ scenarioA0.workTypes, wt.id = 1)) ∧
    (true ≠ false →
      true = true ∧
      ∃ (i : Nat) (w w' : Worker),
        scenarioA0.findWorkerById 1 = some i ∧ scenarioA0.workers[i]? = some w ∧ w.id = 1 ∧
        scenarioA.findWorkerById 1 = some i ∧ scenarioA.workers[i]? = some w' ∧ w'.id = 1 ∧
        w'.records = w.records ++ [{ workTypeId := 1, quantity := 5 }] ∧
        w'.records.length = w.records.length + 1)) :=
  ⟨rfl, addWorkRecordToWorker_contract scenarioA0 scenarioA 1 1 5 true rfl⟩

/-- Scenario C extended: a record for worker 2 leaves worker 1 and the work types alone. -/
theorem addWorkRecordToWorker_frame_witness :
    scenarioC.addWorkRecordToWorker 2 1 3 = (scenarioC2, true) ∧
    ((true = false → scenarioC2 = scenarioC) ∧
    (true = true →
      scenarioC2.workTypes = scenarioC.workTypes ∧
      scenarioC2.nextWorkerId = scenarioC.nextWorkerId ∧
      scenarioC2.nextWorkTypeId = scenarioC.nextWorkTypeId ∧
      scenarioC2.workers.length = scenarioC.workers.length ∧
      ∃ i : Nat, scenarioC.findWorkerById 2 = some i ∧
        (∀ j : Nat, j ≠ i → scenarioC2.workers[j]? = scenarioC.workers[j]?) ∧
        ∃ w w' : Worker, scenarioC.workers[i]? = some w ∧ scenarioC2.workers[i]? = some w' ∧
          w.id = 2 ∧ w'.id = w.id ∧ w'.surname = w.surname ∧ w'.position = w.position)) :=
  ⟨rfl, addWorkRecordToWorker_frame scenarioC scenarioC2 2 1 3 true rfl⟩

/-- Scenario A: the record of worker 1 refers to the work type with id 1. -/
theorem records_reference_existing_witness :
    Reachable scenarioA ∧ smithA ∈ scenarioA.workers ∧
    ({ workTypeId := 1, quantity := 5 } : WorkRecord) ∈ smithA.records ∧
    ((∃ wt ∈ scenarioA.workTypes, wt.id = 1) ∧ scenarioA.findWorkTypeById 1 ≠ none ∧
      findIf scenarioA.workTypes { workTypeId := 1, quantity := 5 } ≠ none) :=
  ⟨⟨_, rfl⟩, List.Mem.head _, List.Mem.head _,
    records_reference_existing scenarioA ⟨_, rfl⟩ smithA (List.Mem.head _)
      { workTypeId := 1, quantity := 5 } (List.Mem.head _)⟩

/-- A registry with salaries 500 and 300: no addition rounds, the total is 800 in either
order of the two workers. -/
theorem getTotalPayoutDouble_accumulates_witness :
    scenarioPay.workers.reverse.Perm scenarioPay.workers ∧
    (∀ w ∈ scenarioPay.workers,
      w.calculateSalaryDouble scenarioPay.workTypes = some (scenarioPaySalary w)) ∧
    exactAccum 0 (scenarioPay.workers.map scenarioPaySalary) = true ∧
    exactAccum 0 (scenarioPay.workers.reverse.map scenarioPaySalary) = true ∧
    (scenarioPay.workers.map scenarioPaySalary).sum = 800 ∧
    scenarioPay.getTotalPayoutDouble
      = some ((scenarioPay.workers.map scenarioPaySalary).sum) ∧
    ({ scenarioPay with workers := scenarioPay.workers.reverse }
        : PayrollSystem).getTotalPayoutDouble = scenarioPay.getTotalPayoutDouble :=
  ⟨List.reverse_perm _, by decide!, by decide!, by decide!, by decide!,
    (getTotalPayoutDouble_accumulates scenarioPay).2.2.2.1 scenarioPaySalary
      (by decide!) (by decide!),
    (getTotalPayoutDouble_accumulates scenarioPay).2.2.2.2 scenarioPay.workers.reverse
      scenarioPaySalary (List.reverse_perm _) (by decide!) (by decide!) (by decide!)⟩

/-- Scenario A: work type 1 is found under its id, and a second work type is still found
after two further calls. -/
theorem workType_lookup_stable_witness :
    WorkType.mk 1 "Hour" 100 ∈ (exec PayrollSystem.fresh scenarioACalls).workTypes ∧
    (exec PayrollSystem.fresh scenarioACalls).findWorkTypeById 1
      = some (WorkType.mk 1 "Hour" 100) ∧
    (exec (scenarioA0.addWorkType "Day" 800).1
        [Call.addWorker "Jones" Position.Manager, Call.addWorkType "Piece" 12]).findWorkTypeById 2
      = some (WorkType.mk 2 "Day" 800) :=
  ⟨List.Mem.head _,
    (workType_lookup_stable scenarioACalls [] "Day" 800).2.2.1 (WorkType.mk 1 "Hour" 100)
      (List.Mem.head _),
    (workType_lookup_stable scenarioACalls
      [Call.addWorker "Jones" Position.Manager, Call.addWorkType "Piece" 12] "Day" 800).1⟩

/-- Scenario C: of two workers named Smith the first-added one is returned. -/
theorem findWorkerBySurname_first_witness :
    (∀ w ∈ PayrollSystem.fresh.workers, w.surname ≠ "Smith") ∧
    ∃ i : Nat,
      ((PayrollSystem.fresh.addWorker "Smith" Position.Employee).1.addWorker "Smith"
          Position.Manager).1.findWorkerBySurname "Smith" = some i ∧
      ((PayrollSystem.fresh.addWorker "Smith" Position.Employee).1.addWorker "Smith"
          Position.Manager).1.workers[i]? =
        some (Worker.mk 1 "Smith" Position.Employee []) ∧
      (1 : Int) < 2 :=
  ⟨fun w hw => absurd hw (List.not_mem_nil w),
    (findWorkerBySurname_first PayrollSystem.fresh "Smith").2.2.1 Position.Employee
      Position.Manager (fun w hw => absurd hw (List.not_mem_nil w))⟩

/-- Scenario A: adding a second work type leaves the salary of worker 1 unchanged. -/
theorem addWorkType_preserves_salary_witness :
    Reachable scenarioA ∧ smithA ∈ scenarioA.workers ∧
    (scenarioA.addWorkType "Day" 800).1.workers = scenarioA.workers ∧
    smithA.calculateSalary (scenarioA.addWorkType "Day" 800).1.workTypes
      = smithA.calculateSalary scenarioA.workTypes ∧
    (scenarioA.addWorkType "Day" 800).1.getTotalPayout = scenarioA.getTotalPayout :=
  ⟨⟨_, rfl⟩, List.Mem.head _,
    (addWorkType_preserves_salary scenarioA ⟨_, rfl⟩ "Day" 800).1,
    (addWorkType_preserves_salary scenarioA ⟨_, rfl⟩ "Day" 800).2.1 smithA (List.Mem.head _),
    (addWorkType_preserves_salary scenarioA ⟨_, rfl⟩ "Day" 800).2.2⟩

/-- Scenario A: its calls carry valid arguments, and so do the stored entities. -/
theorem validated_calls_store_valid_values_witness :
    (∀ c ∈ scenarioACalls ++ [Call.addWorkRecordToWorker 1 1 5], c.Valid) ∧
    StoredValuesOK scenarioA := by
  have hvalid : ∀ c ∈ scenarioACalls ++ [Call.addWorkRecordToWorker 1 1 5], c.Valid := by
    simp [scenarioACalls, Call.Valid]
  exact ⟨hvalid, validated_calls_store_valid_values _ hvalid⟩

end Payroll
